import Mathlib

/-!
Verification of the graph-execution engine specification derived from the
langgraph tutorial notebooks (`src/examples/streaming-tokens.ipynb` and the
chat-executor notebook).  The notebooks define the message-typed state, the
`should_continue` router, the `call_model` / `ToolNode` node shapes and the
two-node graph wiring; the engine itself (reducer registry, step scheduler,
event stream, graph compilation) lives in the imported library and is
modelled here from the specification.
-/

namespace LangGraph

/-- A tool call emitted by an ai message: an opaque call identifier, a tool
name and an argument payload (from the notebook output, e.g.
id `call_eI2B...`, name `tavily_search_results_json`, arguments a query). -/
structure ToolCall where
  id : String
  name : String
  args : String
deriving DecidableEq

/-- A message: tagged variant over the roles `human`, `ai`, `tool` as in the
notebook.  An `ai` message carries content and an ordered list of tool calls;
a `tool` message carries content and the originating call identifier.  Each
message carries an optional identity used by the `messages` reducer for
deduplication (a fresh, never-colliding identity is modelled as `none`). -/
inductive Message where
  | human (id : Option String) (content : String)
  | ai (id : Option String) (content : String) (tool_calls : List ToolCall)
  | tool (id : Option String) (content : String) (tool_call_id : String)
deriving DecidableEq

/-- The identity of a message. -/
def msgId : Message → Option String
  | .human i _ => i
  | .ai i _ _ => i
  | .tool i _ _ => i

/-- Two messages share an identity when both carry the same non-fresh id. -/
def sameId (a b : Message) : Bool :=
  match msgId a, msgId b with
  | some x, some y => x == y
  | _, _ => false

/-- Modelled from the spec: one step of the `messages` reducer (the library
function `add_messages`, absent from src/): a message whose identity matches
an existing one replaces it in place, otherwise it is appended. -/
def addOne (left : List Message) (m : Message) : List Message :=
  if left.any (fun x => sameId x m) then
    left.map (fun x => if sameId x m then m else x)
  else
    left ++ [m]

/-- Modelled from the spec: the `messages` reducer `add_messages` (absent
from src/; the notebook only annotates the field with it): append the patch
to the existing list, deduplicating by message identity where applicable. -/
def add_messages (left right : List Message) : List Message :=
  right.foldl addOne left

/-- The tool calls carried by a message (empty for non-ai messages). -/
def toolCallsOf : Message → List ToolCall
  | .ai _ _ tc => tc
  | _ => []

/-- The state tracked by the notebook graph: a single `messages` field,
annotated with the `add_messages` reducer (`class State(TypedDict)`). -/
structure AgentState where
  messages : List Message
deriving DecidableEq

/-- Merging a node patch into the notebook state: the `messages` field is
governed by the `add_messages` reducer. -/
def mergeState (st : AgentState) (patch : List Message) : AgentState :=
  ⟨add_messages st.messages patch⟩

/-- The `should_continue` router from the notebook: it reads
`state["messages"][-1]` unguarded (an IndexError on an empty list is
modelled as `none`), returns `"end"` when the last message has no tool
calls and `"continue"` otherwise. -/
def should_continue (state : AgentState) : Option String :=
  match state.messages.getLast? with
  | none => none
  | some last_message =>
    if (toolCallsOf last_message).isEmpty then some "end" else some "continue"

/-- Events internal to one node visit, before being tagged with the node
name: model token chunks and tool start/end. -/
inductive InnerEvent where
  | token (text : String)
  | tstart (tool : String) (args : String)
  | tend (tool : String) (output : String)
deriving DecidableEq

/-- Modelled from the spec: the typed lifecycle events of the Event/Token
Stream (the engine component is absent from src/; the notebook only
consumes `astream_events`). -/
inductive Event where
  | node_start (node : String)
  | node_end (node : String)
  | model_token (node : String) (text : String)
  | tool_start (node : String) (tool : String) (args : String)
  | tool_end (node : String) (tool : String) (output : String)
  | run_end
  | run_failed
deriving DecidableEq

/-- Tag an inner event with the node it belongs to. -/
def tagInner (node : String) : InnerEvent → Event
  | .token t => .model_token node t
  | .tstart n a => .tool_start node n a
  | .tend n o => .tool_end node n o

/-- A node capability: full state snapshot in, `messages` patch plus the
inner events it emitted out. -/
def Capability : Type := AgentState → List Message × List InnerEvent

/-- Modelled from the spec: an outgoing edge is unconditional (fixed
destination) or conditional (router plus label-to-destination mapping). -/
inductive EdgeSpec where
  | direct (dest : String)
  | cond (router : AgentState → Option String) (mapping : List (String × String))

/-- The reserved name of the terminal marker (`END` in the notebook). -/
def endMarker : String := "__end__"

/-- Modelled from the spec: the run-time error taxonomy (`RoutingError` for
an unmapped label, a raising router or an unknown node abort the run). -/
inductive RunError where
  | routing (label : String)
  | routerRaised
  | unknownNode (node : String)
deriving DecidableEq

/-- Modelled from the spec: the compiled, immutable executable graph. -/
structure CompiledGraph where
  caps : List (String × Capability)
  edges : List (String × EdgeSpec)
  entry : String

/-- Modelled from the spec: the Step Scheduler state machine states
(`PENDING`/`TERMINATED`/`FAILED`; `RUNNING` and `MERGED` are transient
within a single step). -/
inductive SchedState where
  | pending (node : String) (st : AgentState)
  | terminated (st : AgentState)
  | failed (err : RunError)

/-- A destination resolves to the terminal marker or the next pending node. -/
def resolveDest (dest : String) (st : AgentState) : SchedState :=
  if dest = endMarker then .terminated st else .pending dest st

/-- Modelled from the spec: one scheduler step (absent from src/).  From
`PENDING(node)` the capability runs on the current snapshot, its patch is
merged, then outgoing edges are resolved against the post-merge state: a
conditional router is invoked with the merged state and its label looked up
in the mapping, failing with a routing error when absent; the terminal
marker ends the run.  The step also emits the node event block. -/
def stepE (g : CompiledGraph) : SchedState → SchedState × List Event
  | .pending node st =>
    match List.lookup node g.caps with
    | none => (.failed (.unknownNode node), [.run_failed])
    | some cap =>
      let r := cap st
      let st' := mergeState st r.1
      let evs := Event.node_start node ::
        (r.2.map (tagInner node) ++ [Event.node_end node])
      match List.lookup node g.edges with
      | none => (.failed (.unknownNode node), evs ++ [.run_failed])
      | some (.direct dest) =>
        (resolveDest dest st',
         evs ++ if dest = endMarker then [Event.run_end] else [])
      | some (.cond router mapping) =>
        match router st' with
        | none => (.failed .routerRaised, evs ++ [.run_failed])
        | some label =>
          match List.lookup label mapping with
          | none => (.failed (.routing label), evs ++ [.run_failed])
          | some dest =>
            (resolveDest dest st',
             evs ++ if dest = endMarker then [Event.run_end] else [])
  | s => (s, [])

/-- Modelled from the spec: fuel-indexed driving loop of the scheduler,
returning the state reached and the concatenated event trace.  Terminal
states are fixed points; the engine itself enforces no step bound, so a run
is observed through every finite fuel. -/
def runE (g : CompiledGraph) : Nat → SchedState → SchedState × List Event
  | 0, s => (s, [])
  | fuel + 1, s =>
    match s with
    | .pending node st =>
      let p := stepE g (.pending node st)
      let q := runE g fuel p.1
      (q.1, p.2 ++ q.2)
    | other => (other, [])

/-- The nodes visited by the scheduler, in step order: a node counts as
visited when its capability is actually invoked. -/
def runVisits (g : CompiledGraph) : Nat → SchedState → List String
  | 0, _ => []
  | fuel + 1, s =>
    match s with
    | .pending node st =>
      match List.lookup node g.caps with
      | none => []
      | some _ => node :: runVisits g fuel (stepE g (.pending node st)).1
    | _ => []

/-- The external chat model collaborator used by `call_model`
(`model.ainvoke` in the notebook): given the message history it yields the
streamed token fragments, the final content and the tool calls of one
complete ai response. -/
def ModelOracle : Type := List Message → List String × String × List ToolCall

/-- The external tool collaborator: tool name and arguments to output (the
notebook search tool always answers the same string). -/
def ToolExec : Type := String → String → String

/-- The placeholder `search` tool from the notebook. -/
def search : ToolExec := fun _ _ => "Cloudy with a chance of hail."

/-- The `call_model` node from the notebook: invoke the model on the current
`messages` and return the response as the `messages` patch; the streamed
fragments become token events. -/
def call_model (oracle : ModelOracle) : Capability := fun st =>
  let r := oracle st.messages
  ([Message.ai none r.2.1 r.2.2], r.1.map InnerEvent.token)

/-- The `ToolNode` wrapped over the tools (the `action` node): read the tool
calls of the last message, run each tool in emission order, and return one
`tool` message per call carrying the originating call identifier. -/
def tool_node (tools : ToolExec) : Capability := fun st =>
  match st.messages.getLast? with
  | none => ([], [])
  | some last =>
    let calls := toolCallsOf last
    (calls.map (fun c => Message.tool none (tools c.name c.args) c.id),
     (calls.map (fun c =>
        [InnerEvent.tstart c.name c.args,
         InnerEvent.tend c.name (tools c.name c.args)])).flatten)

/-- Modelled from the spec: the incrementally built graph definition
(`StateGraph` of the library, absent from src/). -/
structure StateGraph where
  nodes : List (String × Capability)
  uedges : List (String × String)
  cedges : List (String × (AgentState → Option String) × List (String × String))
  entry : Option String

/-- Modelled from the spec: the compile-time error taxonomy. -/
inductive CompileError where
  | noEntryPoint
  | unknownNode (node : String)
  | reservedName (node : String)
deriving DecidableEq

def StateGraph.empty : StateGraph := ⟨[], [], [], none⟩

def add_node (b : StateGraph) (id : String) (cap : Capability) : StateGraph :=
  { b with nodes := b.nodes ++ [(id, cap)] }

def add_edge (b : StateGraph) (src dst : String) : StateGraph :=
  { b with uedges := b.uedges ++ [(src, dst)] }

def add_conditional_edges (b : StateGraph) (src : String)
    (router : AgentState → Option String)
    (mapping : List (String × String)) : StateGraph :=
  { b with cedges := b.cedges ++ [(src, router, mapping)] }

def set_entry_point (b : StateGraph) (id : String) : StateGraph :=
  { b with entry := some id }

/-- A name is registered when it is a node identifier; the terminal marker
is always an admissible destination. -/
def registered (b : StateGraph) (n : String) : Bool :=
  n = endMarker || (b.nodes.map Prod.fst).contains n

/-- Every node identifier an edge of the graph references: sources and
destinations of unconditional edges, sources and mapped destinations of
conditional edges. -/
def edgeRefs (b : StateGraph) : List String :=
  b.uedges.map Prod.fst ++ b.uedges.map Prod.snd
    ++ b.cedges.map Prod.fst
    ++ (b.cedges.map (fun ce => ce.2.2.map Prod.snd)).flatten

/-- Modelled from the spec: `compile()` validates the definition and
produces the immutable executable graph.  It fails deterministically when a
node identifier collides with the terminal marker's reserved name, when no
entry point has been set, when the entry point is unregistered, or when any
edge references an unregistered node. -/
def StateGraph.compile (b : StateGraph) : Except CompileError CompiledGraph :=
  if (b.nodes.map Prod.fst).contains endMarker then
    .error (.reservedName endMarker)
  else
    match b.entry with
    | none => .error .noEntryPoint
    | some e =>
      match (edgeRefs b).find? (fun n => !(registered b n)) with
      | some n => .error (.unknownNode n)
      | none =>
        if registered b e then
          .ok { caps := b.nodes,
                edges := b.uedges.map (fun p => (p.1, EdgeSpec.direct p.2))
                  ++ b.cedges.map (fun ce => (ce.1, EdgeSpec.cond ce.2.1 ce.2.2)),
                entry := e }
        else .error (.unknownNode e)

/-- The label-to-destination mapping of the notebook's conditional edge. -/
def agentMapping : List (String × String) :=
  [("continue", "action"), ("end", endMarker)]

/-- The notebook graph definition, built exactly as in the notebook:
two nodes `agent` and `action`, entry point `agent`, a conditional edge
from `agent` routed by `should_continue`, and an unconditional edge from
`action` back to `agent`. -/
def workflow (oracle : ModelOracle) (tools : ToolExec) : StateGraph :=
  add_edge
    (add_conditional_edges
      (set_entry_point
        (add_node (add_node StateGraph.empty "agent" (call_model oracle))
          "action" (tool_node tools))
        "agent")
      "agent" should_continue agentMapping)
    "action" "agent"

/-- The compiled executable form of the notebook graph (`app` in the
notebook), written out explicitly. -/
def app (oracle : ModelOracle) (tools : ToolExec) : CompiledGraph :=
  { caps := [("agent", call_model oracle), ("action", tool_node tools)],
    edges := [("action", EdgeSpec.direct "agent"),
              ("agent", EdgeSpec.cond should_continue agentMapping)],
    entry := "agent" }

/-- The messages of the state carried by a scheduler state (a failed run
returns no state). -/
def messagesOf : SchedState → List Message
  | .pending _ st => st.messages
  | .terminated st => st.messages
  | .failed _ => []

def isTerminated : SchedState → Bool
  | .terminated _ => true
  | _ => false

def isFailed : SchedState → Bool
  | .failed _ => true
  | _ => false

/-- The complete ai response the model collaborator produces for the
current history, as `call_model` wraps it. -/
def modelResponse (oracle : ModelOracle) (st : AgentState) : Message :=
  Message.ai none (oracle st.messages).2.1 (oracle st.messages).2.2

/-- The first tool call of scenario A (San Francisco), with the call
identifier observed in the notebook output. -/
def sfCall : ToolCall :=
  ⟨"call_eI2B853W8Jrm8IvmwEafikFv", "search", "weather in San Francisco"⟩

/-- The second tool call of scenario A (Los Angeles). -/
def laCall : ToolCall :=
  ⟨"call_Aky1m2Z5dvUcHKyha7r5s3Wj", "search", "weather in Los Angeles"⟩

def isAiMsg : Message → Bool
  | .ai _ _ _ => true
  | _ => false

/-- The scenario-A model collaborator, scripted from the recorded notebook
run: on the first pass (no ai message in the history yet) it emits an ai
message with the two tool calls; on the second pass it emits a final ai
message with no tool calls. -/
def scriptedModel : ModelOracle := fun msgs =>
  if msgs.any isAiMsg then
    ([], "The weather in San Francisco and Los Angeles is cloudy.", [])
  else
    ([], "", [sfCall, laCall])

/-- The scenario-A input from the notebook. -/
def scenarioAInit : AgentState :=
  ⟨[Message.human none "what is the weather in sf and la"]⟩

/-- The final `messages` list of scenario A: human, ai with the two tool
calls, the two tool messages carrying the matching call identifiers in
emission order, and the final ai message with no tool calls. -/
def scenarioAFinal : List Message :=
  [Message.human none "what is the weather in sf and la",
   Message.ai none "" [sfCall, laCall],
   Message.tool none "Cloudy with a chance of hail." sfCall.id,
   Message.tool none "Cloudy with a chance of hail." laCall.id,
   Message.ai none "The weather in San Francisco and Los Angeles is cloudy." []]

/-- A scheduler state of a notebook-graph run is good when it is pending at
one of the two registered nodes or terminated -- never failed. -/
def GoodS (s : SchedState) : Prop :=
  (∃ st, s = .pending "agent" st) ∨ (∃ st, s = .pending "action" st)
    ∨ (∃ st, s = .terminated st)

/-- The alternation pattern starting at a given node: `agent` and `action`
strictly alternate. -/
def otherNode (n : String) : String := if n = "agent" then "action" else "agent"

def altFrom : String → List String → Bool
  | _, [] => true
  | cur, x :: xs => x == cur && altFrom (otherNode cur) xs

/-- A model collaborator that asks for a tool call on every invocation. -/
def loopModel : ModelOracle := fun _ => ([], "", [sfCall])

/-- Routing through a conditional edge as a function of the post-merge
state alone: invoke the router, look the label up in the mapping, resolve
the destination.  The scheduler state a step produces factors through this
function applied to the merged state. -/
def routeFrom (router : AgentState → Option String)
    (mapping : List (String × String)) (merged : AgentState) : SchedState :=
  match router merged with
  | none => .failed .routerRaised
  | some label =>
    match List.lookup label mapping with
    | none => .failed (.routing label)
    | some dest => resolveDest dest merged

/-- A capability returning an empty patch and no events. -/
def noopCap : Capability := fun _ => ([], [])

/-- A graph whose router returns a label missing from its mapping, used to
exercise the routing-error path. -/
def badRouter : AgentState → Option String := fun _ => some "missing"

def badGraph : CompiledGraph :=
  { caps := [("n", noopCap)],
    edges := [("n", EdgeSpec.cond badRouter [])],
    entry := "n" }

/-- Modelled from the spec: a state field value for the generic reducer
registry (the engine state is a mapping from field name to value). -/
inductive Value where
  | msgList (l : List Message)
  | str (s : String)
  | num (n : Nat)
deriving DecidableEq

/-- Modelled from the spec: a reducer merges the old field value (absent
when the field is unset) with the patch value. -/
def Reducer : Type := Option Value → Value → Value

/-- Modelled from the spec: the default replace reducer. -/
def replaceReducer : Reducer := fun _ v => v

/-- Modelled from the spec: the per-field reducer registry. -/
def Registry : Type := List (String × Reducer)

/-- The reducer governing a field: the registered one, or replace. -/
def reducerFor (reg : Registry) (field : String) : Reducer :=
  match List.lookup field reg with
  | some r => r
  | none => replaceReducer

/-- Modelled from the spec: a full state or a partial patch, as a mapping
from field name to optional value. -/
def FieldState : Type := String → Option Value

/-- A patch touching only the `messages` field, as returned by a node like
`call_model`. -/
def msgsOnlyPatch (v : Value) : FieldState :=
  fun f => if f = "messages" then some v else none

/-- Modelled from the spec: `merge(old_state, patch)`: each field present
in the patch is merged by its reducer applied to the old value, every field
absent from the patch is carried over unchanged. -/
def merge (reg : Registry) (old patch : FieldState) : FieldState :=
  fun field =>
    match patch field with
    | some v => some (reducerFor reg field (old field) v)
    | none => old field

/-- A two-field example state for the C6 witness. -/
def exampleOld : FieldState := fun f =>
  if f = "messages" then some (Value.msgList [])
  else if f = "count" then some (Value.num 3) else none

/-- An example registry where only `messages` is registered. -/
def exampleReg : Registry :=
  [("messages", fun _ v => v)]

/-- The call identifiers a message emits (non-empty only for ai messages
with tool calls). -/
def callIdsOf (m : Message) : List String := (toolCallsOf m).map ToolCall.id

/-- All call identifiers emitted by a message list, left to right, on top
of an initial set. -/
def collectIds (seen : List String) : List Message → List String
  | [] => seen
  | m :: rest => collectIds (seen ++ callIdsOf m) rest

/-- Scan a message list left to right: every `tool` message's call
identifier must already have been emitted by an earlier ai message (or
belong to the initial set). -/
def toolsMatchedAux (seen : List String) : List Message → Bool
  | [] => true
  | m :: rest =>
    (match m with
     | .tool _ _ cid => seen.contains cid
     | _ => true) && toolsMatchedAux (seen ++ callIdsOf m) rest

/-- The C3 invariant: every `tool` message's call identifier matches a tool
call emitted by an `ai` message occurring earlier in the list. -/
def toolsMatched (msgs : List Message) : Bool := toolsMatchedAux [] msgs

/-- The invariant on the state carried by a scheduler state. -/
def MatchedS (s : SchedState) : Prop := toolsMatched (messagesOf s) = true

/-- Is this event an inner event (token or tool activity) attributed to the
given node? -/
def innerOk (node : String) : Event → Bool
  | .model_token n _ => n == node
  | .tool_start n _ _ => n == node
  | .tool_end n _ _ => n == node
  | _ => false

/-- Trace wellformedness checker: outside a block (`none`) the trace must
be a `node_start`, a single final `run_end`/`run_failed`, or empty; inside
a block (`some node`) only inner events of that node may appear until the
matching `node_end` closes the block. -/
def chkEvents : Option String → List Event → Bool
  | none, [] => true
  | some _, [] => false
  | none, e :: rest =>
    (match e with
     | .node_start n => chkEvents (some n) rest
     | .run_end => rest.isEmpty
     | .run_failed => rest.isEmpty
     | _ => false)
  | some node, e :: rest =>
    if innerOk node e then chkEvents (some node) rest
    else
      (match e with
       | .node_end n => n == node && chkEvents none rest
       | _ => false)

/-- The nodes whose blocks start in a trace, in order. -/
def blockStarts : List Event → List String
  | [] => []
  | .node_start n :: rest => n :: blockStarts rest
  | _ :: rest => blockStarts rest

theorem sameId_symm (a b : Message) : sameId a b = sameId b a := by
  unfold sameId
  cases msgId a <;> cases msgId b <;> simp [BEq.comm]

theorem addOne_of_not_sameId (left : List Message) (m : Message)
    (h : ∀ x ∈ left, sameId x m = false) : addOne left m = left ++ [m] := by
  unfold addOne
  rw [if_neg]
  simp only [List.any_eq_true]
  rintro ⟨x, hx, hsame⟩
  rw [h x hx] at hsame
  exact Bool.false_ne_true hsame

theorem addOne_of_fresh (left : List Message) (m : Message)
    (h : msgId m = none) : addOne left m = left ++ [m] := by
  apply addOne_of_not_sameId
  intro x _
  unfold sameId
  rw [h]
  cases msgId x <;> rfl

/-- A patch of messages all with fresh identity is a pure append. -/
theorem add_messages_of_fresh (left right : List Message)
    (h : ∀ m ∈ right, msgId m = none) :
    add_messages left right = left ++ right := by
  induction right generalizing left with
  | nil => simp [add_messages]
  | cons m r ih =>
    unfold add_messages at *
    simp only [List.foldl_cons]
    rw [addOne_of_fresh left m (h m (by simp))]
    rw [ih (left ++ [m]) (fun x hx => h x (by simp [hx]))]
    simp

/-- The reducer never shortens the list. -/
theorem add_messages_length_ge (left right : List Message) :
    left.length ≤ (add_messages left right).length := by
  induction right generalizing left with
  | nil => simp [add_messages]
  | cons m r ih =>
    unfold add_messages at *
    simp only [List.foldl_cons]
    refine le_trans ?_ (ih (addOne left m))
    unfold addOne
    split
    · simp
    · simp

theorem mergeState_fresh (st : AgentState) (patch : List Message)
    (h : ∀ m ∈ patch, msgId m = none) :
    mergeState st patch = ⟨st.messages ++ patch⟩ := by
  unfold mergeState
  rw [add_messages_of_fresh st.messages patch h]

theorem mergeState_agent (oracle : ModelOracle) (st : AgentState) :
    mergeState st [modelResponse oracle st]
      = ⟨st.messages ++ [modelResponse oracle st]⟩ := by
  apply mergeState_fresh
  intro m hm
  simp at hm
  subst hm
  rfl

theorem should_continue_concat (msgs : List Message) (m : Message) :
    should_continue ⟨msgs ++ [m]⟩ =
      some (if (toolCallsOf m).isEmpty then "end" else "continue") := by
  unfold should_continue
  simp only [List.getLast?_concat]
  split <;> simp_all

/-- One scheduler step from the `agent` node: the model response is merged
(appended) and the router decides between the `action` node and the
terminal marker by whether the response carries tool calls. -/
theorem agent_step (oracle : ModelOracle) (tools : ToolExec) (st : AgentState) :
    (stepE (app oracle tools) (.pending "agent" st)).1 =
      if ((oracle st.messages).2.2).isEmpty
      then .terminated ⟨st.messages ++ [modelResponse oracle st]⟩
      else .pending "action" ⟨st.messages ++ [modelResponse oracle st]⟩ := by
  have hm := mergeState_agent oracle st
  have hsc := should_continue_concat st.messages (modelResponse oracle st)
  have hcap : call_model oracle st
      = ([modelResponse oracle st], (oracle st.messages).1.map InnerEvent.token) := rfl
  simp only [stepE, app, List.lookup]
  simp only [show ("agent" == "agent") = true by decide,
    show ("agent" == "action") = false by decide, if_true, if_false, hcap]
  rw [hm, hsc]
  by_cases h : ((oracle st.messages).2.2).isEmpty = true
  · simp [h, agentMapping, List.lookup, resolveDest, toolCallsOf, modelResponse]
  · simp [h, agentMapping, List.lookup, resolveDest, endMarker, toolCallsOf,
      modelResponse]

/-- One scheduler step from the `action` node: the tool messages are merged
and the unconditional edge returns to `agent`. -/
theorem action_step (oracle : ModelOracle) (tools : ToolExec) (st : AgentState) :
    (stepE (app oracle tools) (.pending "action" st)).1 =
      .pending "agent" (mergeState st (tool_node tools st).1) := by
  simp only [stepE, app, List.lookup]
  simp only [show ("action" == "agent") = false by decide,
    show ("action" == "action") = true by decide, if_true, if_false]
  simp [resolveDest, endMarker]

theorem workflow_compiles (oracle : ModelOracle) (tools : ToolExec) :
    (workflow oracle tools).compile = .ok (app oracle tools) := rfl

theorem runE_succ_pending (g : CompiledGraph) (k : Nat) (node : String)
    (st : AgentState) :
    (runE g (k + 1) (.pending node st)).1
      = (runE g k (stepE g (.pending node st)).1).1 := rfl

theorem runE_terminated (g : CompiledGraph) (fuel : Nat) (st : AgentState) :
    (runE g fuel (.terminated st)).1 = .terminated st := by
  cases fuel <;> rfl

theorem runVisits_succ_agent (oracle : ModelOracle) (tools : ToolExec)
    (k : Nat) (st : AgentState) :
    runVisits (app oracle tools) (k + 1) (.pending "agent" st)
      = "agent" :: runVisits (app oracle tools) k
          (stepE (app oracle tools) (.pending "agent" st)).1 := rfl

theorem runVisits_succ_action (oracle : ModelOracle) (tools : ToolExec)
    (k : Nat) (st : AgentState) :
    runVisits (app oracle tools) (k + 1) (.pending "action" st)
      = "action" :: runVisits (app oracle tools) k
          (stepE (app oracle tools) (.pending "action" st)).1 := rfl

theorem stepE_good (oracle : ModelOracle) (tools : ToolExec) (s : SchedState)
    (h : GoodS s) : GoodS (stepE (app oracle tools) s).1 := by
  rcases h with ⟨st, rfl⟩ | ⟨st, rfl⟩ | ⟨st, rfl⟩
  · rw [agent_step]
    by_cases h : ((oracle st.messages).2.2).isEmpty = true
    · rw [if_pos h]
      exact Or.inr (Or.inr ⟨_, rfl⟩)
    · rw [if_neg h]
      exact Or.inr (Or.inl ⟨_, rfl⟩)
  · rw [action_step]
    exact Or.inl ⟨_, rfl⟩
  · exact Or.inr (Or.inr ⟨st, rfl⟩)

theorem runE_good (oracle : ModelOracle) (tools : ToolExec) (fuel : Nat)
    (s : SchedState) (h : GoodS s) :
    GoodS (runE (app oracle tools) fuel s).1 := by
  induction fuel generalizing s with
  | zero => simpa [runE] using h
  | succ n ih =>
    have h' := stepE_good oracle tools s h
    rcases h with ⟨st, rfl⟩ | ⟨st, rfl⟩ | ⟨st, rfl⟩
    · rw [runE_succ_pending]
      exact ih _ h'
    · rw [runE_succ_pending]
      exact ih _ h'
    · rw [runE_terminated]
      exact Or.inr (Or.inr ⟨st, rfl⟩)

theorem GoodS.not_failed {s : SchedState} (h : GoodS s) : isFailed s = false := by
  rcases h with ⟨st, rfl⟩ | ⟨st, rfl⟩ | ⟨st, rfl⟩ <;> rfl

theorem runVisits_terminated (g : CompiledGraph) (fuel : Nat) (st : AgentState) :
    runVisits g fuel (.terminated st) = [] := by
  cases fuel <;> rfl

theorem runVisits_alt (oracle : ModelOracle) (tools : ToolExec) (fuel : Nat)
    (st : AgentState) (n : String) (hn : n = "agent" ∨ n = "action") :
    altFrom n (runVisits (app oracle tools) fuel (.pending n st)) = true := by
  induction fuel generalizing st n with
  | zero => rfl
  | succ k ih =>
    have hoa : otherNode "agent" = "action" := by simp [otherNode]
    have hob : otherNode "action" = "agent" := by simp [otherNode]
    rcases hn with rfl | rfl
    · rw [runVisits_succ_agent, agent_step]
      by_cases h : ((oracle st.messages).2.2).isEmpty = true
      · rw [if_pos h, runVisits_terminated]
        decide
      · rw [if_neg h]
        simp only [altFrom, hoa, show ("agent" == "agent") = true by decide,
          Bool.true_and]
        exact ih _ "action" (Or.inr rfl)
    · rw [runVisits_succ_action, action_step]
      simp only [altFrom, hob, show ("action" == "action") = true by decide,
        Bool.true_and]
      exact ih _ "agent" (Or.inl rfl)

theorem never_terminated (oracle : ModelOracle) (tools : ToolExec)
    (hc : ∀ msgs, (oracle msgs).2.2 ≠ []) (fuel : Nat) (st : AgentState)
    (n : String) (hn : n = "agent" ∨ n = "action") :
    isTerminated (runE (app oracle tools) fuel (.pending n st)).1 = false := by
  induction fuel generalizing st n with
  | zero => rfl
  | succ k ih =>
    rcases hn with rfl | rfl
    · rw [runE_succ_pending, agent_step]
      have h : ((oracle st.messages).2.2).isEmpty = false := by
        simpa [List.isEmpty_iff] using hc st.messages
      rw [if_neg (by simp [h])]
      exact ih _ "action" (Or.inr rfl)
    · rw [runE_succ_pending, action_step]
      exact ih _ "agent" (Or.inl rfl)

theorem toolsMatchedAux_append (seen : List String) (l r : List Message) :
    toolsMatchedAux seen (l ++ r)
      = (toolsMatchedAux seen l && toolsMatchedAux (collectIds seen l) r) := by
  induction l generalizing seen with
  | nil => simp [toolsMatchedAux, collectIds]
  | cons m rest ih =>
    simp only [List.cons_append, toolsMatchedAux, collectIds, List.append_eq,
      ih, Bool.and_assoc]

theorem collectIds_append (seen : List String) (l r : List Message) :
    collectIds seen (l ++ r) = collectIds (collectIds seen l) r := by
  induction l generalizing seen with
  | nil => rfl
  | cons m rest ih =>
    simp only [List.cons_append, collectIds, List.append_eq, ih]

/-- Appending an ai message preserves the invariant. -/
theorem toolsMatched_append_ai (msgs : List Message) (i : Option String)
    (c : String) (tc : List ToolCall) (h : toolsMatched msgs = true) :
    toolsMatched (msgs ++ [Message.ai i c tc]) = true := by
  unfold toolsMatched at *
  rw [toolsMatchedAux_append, h]
  rfl

/-- A batch of tool messages whose identifiers are all already emitted
passes the scan. -/
theorem toolsMatchedAux_tools (seen : List String) (ts : List Message)
    (h : ∀ m ∈ ts, ∃ i c cid, m = Message.tool i c cid
      ∧ seen.contains cid = true) :
    toolsMatchedAux seen ts = true := by
  induction ts with
  | nil => rfl
  | cons m rest ih =>
    obtain ⟨i, c, cid, rfl, hc⟩ := h m (by simp)
    simp only [toolsMatchedAux, hc, Bool.true_and, callIdsOf, toolCallsOf,
      List.map_nil, List.append_nil]
    exact ih (fun m hm => h m (by simp [hm]))

/-- Appending, for each tool call of the last message, a tool message
carrying that call identifier preserves the invariant. -/
theorem toolsMatched_append_toolmsgs (msgs : List Message) (last : Message)
    (hlast : msgs.getLast? = some last) (h : toolsMatched msgs = true)
    (out : ToolCall → String) :
    toolsMatched (msgs ++ (toolCallsOf last).map
      (fun c => Message.tool none (out c) c.id)) = true := by
  unfold toolsMatched at *
  rw [toolsMatchedAux_append, h, Bool.true_and]
  apply toolsMatchedAux_tools
  intro m hm
  simp only [List.mem_map] at hm
  obtain ⟨c, hc, rfl⟩ := hm
  refine ⟨none, out c, c.id, rfl, ?_⟩
  obtain ⟨front, rfl⟩ := List.getLast?_eq_some_iff.mp hlast
  rw [collectIds_append]
  have hmem : c.id ∈ callIdsOf last := by
    simp only [callIdsOf, List.mem_map]
    exact ⟨c, hc, rfl⟩
  show (collectIds [] front ++ callIdsOf last).contains c.id = true
  simp [hmem]

theorem stepE_matched (oracle : ModelOracle) (tools : ToolExec)
    (s : SchedState) (hg : GoodS s) (h : MatchedS s) :
    MatchedS (stepE (app oracle tools) s).1 := by
  rcases hg with ⟨st, rfl⟩ | ⟨st, rfl⟩ | ⟨st, rfl⟩
  · rw [MatchedS, agent_step]
    by_cases hc : ((oracle st.messages).2.2).isEmpty = true
    · rw [if_pos hc]
      exact toolsMatched_append_ai _ _ _ _ h
    · rw [if_neg hc]
      exact toolsMatched_append_ai _ _ _ _ h
  · rw [MatchedS, action_step]
    show toolsMatched (mergeState st (tool_node tools st).1).messages = true
    unfold tool_node
    cases hlast : st.messages.getLast? with
    | none => simpa [mergeState, add_messages] using h
    | some last =>
      rw [mergeState_fresh]
      · exact toolsMatched_append_toolmsgs st.messages last hlast h
          (fun c => tools c.name c.args)
      · intro m hm
        simp only [List.mem_map] at hm
        obtain ⟨c, _, rfl⟩ := hm
        rfl
  · exact h

theorem runE_matched (oracle : ModelOracle) (tools : ToolExec) (fuel : Nat)
    (s : SchedState) (hg : GoodS s) (h : MatchedS s) :
    MatchedS (runE (app oracle tools) fuel s).1 := by
  induction fuel generalizing s with
  | zero => simpa [runE] using h
  | succ n ih =>
    have hg' := stepE_good oracle tools s hg
    have h' := stepE_matched oracle tools s hg h
    rcases hg with ⟨st, rfl⟩ | ⟨st, rfl⟩ | ⟨st, rfl⟩
    · rw [runE_succ_pending]
      exact ih _ hg' h'
    · rw [runE_succ_pending]
      exact ih _ hg' h'
    · rw [runE_terminated]
      exact h

theorem innerOk_tag (node : String) (e : InnerEvent) :
    innerOk node (tagInner node e) = true := by
  cases e <;> simp [innerOk, tagInner]

theorem chk_inner (node : String) (inner : List InnerEvent)
    (rest : List Event) :
    chkEvents (some node) (inner.map (tagInner node) ++ rest)
      = chkEvents (some node) rest := by
  induction inner with
  | nil => rfl
  | cons e es ih =>
    simp only [List.map_cons, List.cons_append, chkEvents, innerOk_tag,
      if_true]
    exact ih

theorem chk_block (node : String) (inner : List InnerEvent)
    (rest : List Event) :
    chkEvents none ((Event.node_start node ::
        (inner.map (tagInner node) ++ [Event.node_end node])) ++ rest)
      = chkEvents none rest := by
  simp only [List.cons_append, List.append_assoc, List.singleton_append]
  show chkEvents (some node)
      (inner.map (tagInner node) ++ (Event.node_end node :: rest)) = _
  rw [chk_inner]
  simp [chkEvents, innerOk]

theorem blockStarts_tag (node : String) (inner : List InnerEvent)
    (rest : List Event) :
    blockStarts (inner.map (tagInner node) ++ rest) = blockStarts rest := by
  induction inner with
  | nil => rfl
  | cons e es ih =>
    cases e <;> simpa [blockStarts, tagInner] using ih

theorem blockStarts_block (node : String) (inner : List InnerEvent)
    (rest : List Event) :
    blockStarts ((Event.node_start node ::
        (inner.map (tagInner node) ++ [Event.node_end node])) ++ rest)
      = node :: blockStarts rest := by
  simp only [List.cons_append, List.append_assoc, List.singleton_append]
  show node :: blockStarts
      (inner.map (tagInner node) ++ (Event.node_end node :: rest)) = _
  rw [blockStarts_tag]
  rfl

theorem runE_failed_pair (g : CompiledGraph) (fuel : Nat) (e : RunError) :
    runE g fuel (.failed e) = (.failed e, []) := by
  cases fuel <;> rfl

theorem runE_terminated_pair (g : CompiledGraph) (fuel : Nat)
    (st : AgentState) :
    runE g fuel (.terminated st) = (.terminated st, []) := by
  cases fuel <;> rfl

theorem runE_succ_pending_pair (g : CompiledGraph) (k : Nat) (node : String)
    (st : AgentState) :
    runE g (k + 1) (.pending node st)
      = ((runE g k (stepE g (.pending node st)).1).1,
         (stepE g (.pending node st)).2
           ++ (runE g k (stepE g (.pending node st)).1).2) := rfl

theorem runVisits_failed (g : CompiledGraph) (fuel : Nat) (e : RunError) :
    runVisits g fuel (.failed e) = [] := by
  cases fuel <;> rfl

/-- C2 -- For every state whose `messages` holds `[m0]` and every patch
`[m1, m2]`, when no two of the three messages share an identity the
`add_messages` reducer yields exactly `[m0, m1, m2]`: append-only,
order-preserving, nothing reordered or dropped. -/
theorem add_messages_append_only (m0 m1 m2 : Message)
    (h10 : sameId m1 m0 = false) (h20 : sameId m2 m0 = false)
    (h21 : sameId m2 m1 = false) :
    add_messages [m0] [m1, m2] = [m0, m1, m2] := by
  unfold add_messages
  simp only [List.foldl_cons, List.foldl_nil]
  rw [addOne_of_not_sameId [m0] m1 (by intro x hx; simp at hx; subst hx; rw [sameId_symm]; exact h10)]
  show addOne [m0, m1] m2 = [m0, m1, m2]
  rw [addOne_of_not_sameId [m0, m1] m2 (by
    intro x hx
    simp at hx
    rcases hx with h | h <;> subst h <;> rw [sameId_symm]
    · exact h20
    · exact h21)]
  rfl

/-- Witness for C2 at concrete messages. -/
theorem add_messages_append_only_witness :
    add_messages [Message.human none "q"]
      [Message.ai none "a" [], Message.tool none "out" "c1"] =
      [Message.human none "q", Message.ai none "a" [],
       Message.tool none "out" "c1"] :=
  add_messages_append_only _ _ _ (by decide) (by decide) (by decide)

/-- C1 counterexample -- the scenario-A run does not end with 4 entries in
`messages`: the listed order (human, ai with two calls, two tool messages,
final ai) already has 5 entries, as the recorded notebook output shows. -/
theorem scenarioA_not_four :
    ¬ (messagesOf (runE (app scriptedModel search) 4
        (.pending "agent" scenarioAInit)).1).length = 4 := by decide

/-- C1 (amended) -- the scenario-A run terminates with exactly 5 entries in
`messages`, in the order: the human message, an ai message carrying the two
tool calls, two tool messages whose call identifiers match those calls in
emission order, and a final ai message with no tool calls. -/
theorem scenarioA_run :
    (runE (app scriptedModel search) 4 (.pending "agent" scenarioAInit)).1
      = .terminated ⟨scenarioAFinal⟩ ∧ scenarioAFinal.length = 5 := ⟨rfl, rfl⟩

/-- C3 -- In every state reachable during a notebook-graph run from an
initial state satisfying the invariant, every `tool` message's call
identifier matches a tool call emitted by an earlier `ai` message in the
same list: no tool message ever appears unsolicited. -/
theorem tool_messages_solicited (oracle : ModelOracle) (tools : ToolExec)
    (fuel : Nat) (st : AgentState) (h : toolsMatched st.messages = true) :
    toolsMatched (messagesOf
      (runE (app oracle tools) fuel (.pending "agent" st)).1) = true :=
  runE_matched oracle tools fuel _ (Or.inl ⟨st, rfl⟩) h

/-- Witness for C3 on the scenario-A run at every prefix length up to the
full run. -/
theorem tool_messages_solicited_witness :
    toolsMatched (messagesOf
      (runE (app scriptedModel search) 2
        (.pending "agent" scenarioAInit)).1) = true ∧
    toolsMatched (messagesOf
      (runE (app scriptedModel search) 4
        (.pending "agent" scenarioAInit)).1) = true :=
  ⟨tool_messages_solicited scriptedModel search 2 scenarioAInit (by decide),
   tool_messages_solicited scriptedModel search 4 scenarioAInit (by decide)⟩

/-- C4 -- The conditional router runs on the post-merge state: for every
scheduler step through a conditional edge, the resulting state is
`routeFrom` applied to the state with the just-finished node's patch
already merged in, never to the pre-merge snapshot; in the notebook graph,
a step from `agent` is decided by `should_continue` applied to the state
with the `call_model` response merged in, and the last entry of that merged
`messages` list is exactly the response. -/
theorem router_sees_post_merge :
    (∀ (g : CompiledGraph) (node : String) (st : AgentState)
       (cap : Capability) (router : AgentState → Option String)
       (mapping : List (String × String)),
      List.lookup node g.caps = some cap →
      List.lookup node g.edges = some (.cond router mapping) →
      (stepE g (.pending node st)).1
        = routeFrom router mapping (mergeState st (cap st).1)) ∧
    (∀ (oracle : ModelOracle) (tools : ToolExec) (st : AgentState),
      (stepE (app oracle tools) (.pending "agent" st)).1 =
        (if should_continue (mergeState st [modelResponse oracle st])
            = some "continue"
         then .pending "action" (mergeState st [modelResponse oracle st])
         else .terminated (mergeState st [modelResponse oracle st])) ∧
      (mergeState st [modelResponse oracle st]).messages.getLast?
        = some (modelResponse oracle st)) := by
  constructor
  · intro g node st cap router mapping hcap hedge
    simp only [stepE, hcap, hedge, routeFrom]
    split
    · rfl
    · split <;> rfl
  · intro oracle tools st
    rw [mergeState_agent oracle st]
    refine ⟨?_, by simp⟩
    rw [agent_step oracle tools st, should_continue_concat]
    by_cases h : ((oracle st.messages).2.2).isEmpty = true
    · simp [h, toolCallsOf, modelResponse]
    · simp [h, toolCallsOf, modelResponse]

/-- Witness for C4 on the concrete one-node graph with a conditional edge. -/
theorem router_sees_post_merge_witness :
    (stepE badGraph (.pending "n" ⟨[]⟩)).1
      = routeFrom badRouter [] (mergeState ⟨[]⟩ (noopCap ⟨[]⟩).1) :=
  router_sees_post_merge.1 badGraph "n" ⟨[]⟩ noopCap badRouter [] rfl rfl

/-- C5 -- When a conditional router returns a label absent from the
destination mapping, the step fails with the routing error, and a failed
scheduler invokes nothing further: it is a fixed point that emits no
events. -/
theorem routing_error_aborts (g : CompiledGraph) (node : String)
    (st : AgentState) (cap : Capability)
    (router : AgentState → Option String) (mapping : List (String × String))
    (label : String)
    (hcap : List.lookup node g.caps = some cap)
    (hedge : List.lookup node g.edges = some (.cond router mapping))
    (hlbl : router (mergeState st (cap st).1) = some label)
    (hmiss : List.lookup label mapping = none) :
    (stepE g (.pending node st)).1 = .failed (.routing label) ∧
    (∀ (fuel : Nat) (e : RunError), runE g fuel (.failed e) = (.failed e, [])) := by
  constructor
  · simp only [stepE, hcap, hedge, hlbl, hmiss]
  · intro fuel e
    cases fuel <;> rfl

/-- Witness for C5 on a concrete one-node graph with an unmapped label. -/
theorem routing_error_aborts_witness :
    (stepE badGraph (.pending "n" ⟨[]⟩)).1 = .failed (.routing "missing") ∧
    runE badGraph 3 (.failed (.routing "missing"))
      = (.failed (.routing "missing"), []) :=
  ⟨(routing_error_aborts badGraph "n" ⟨[]⟩ _ badRouter [] "missing"
      rfl rfl rfl rfl).1,
   (routing_error_aborts badGraph "n" ⟨[]⟩ _ badRouter [] "missing"
      rfl rfl rfl rfl).2 3 (.routing "missing")⟩

/-- C6 -- `merge(old_state, patch)` updates exactly the fields present in
the patch, each through its registered reducer (the default replace reducer
when the field is unregistered), carries every field absent from the patch
over unchanged, and in particular a patch touching only `messages` leaves
every other field identical. -/
theorem merge_frame (reg : Registry) (old patch : FieldState) :
    (∀ f v, patch f = some v →
      merge reg old patch f = some (reducerFor reg f (old f) v)) ∧
    (∀ f v, patch f = some v → List.lookup f reg = none →
      merge reg old patch f = some v) ∧
    (∀ f, patch f = none → merge reg old patch f = old f) ∧
    (∀ (v : Value) (f : String), f ≠ "messages" →
      merge reg old (msgsOnlyPatch v) f = old f) := by
  refine ⟨fun f v h => ?_, fun f v h hr => ?_, fun f h => ?_, fun v f h => ?_⟩
  · simp [merge, h]
  · simp [merge, h, reducerFor, hr, replaceReducer]
  · simp [merge, h]
  · simp [merge, msgsOnlyPatch, h]

/-- Witness for C6: a `messages`-only patch goes through the registered
reducer for `messages`, an unregistered field would be replaced, and the
untouched `count` field is carried over unchanged. -/
theorem merge_frame_witness :
    merge exampleReg exampleOld (msgsOnlyPatch (Value.num 7)) "messages"
      = some (reducerFor exampleReg "messages" (exampleOld "messages")
          (Value.num 7)) ∧
    merge exampleReg exampleOld (fun _ => none) "count" = exampleOld "count" ∧
    merge exampleReg exampleOld (msgsOnlyPatch (Value.num 7)) "count"
      = exampleOld "count" :=
  ⟨(merge_frame exampleReg exampleOld (msgsOnlyPatch (Value.num 7))).1
      "messages" (Value.num 7) rfl,
   (merge_frame exampleReg exampleOld (fun _ => none)).2.2.1 "count" rfl,
   (merge_frame exampleReg exampleOld (msgsOnlyPatch (Value.num 7))).2.2.2
      (Value.num 7) "count" (by decide)⟩

/-- C7 -- `compile()` fails deterministically whenever no entry point has
been set or any edge references an unregistered node identifier, and the
notebook graph, built by `add_node` / `add_edge` / `add_conditional_edges` /
`set_entry_point` with all references defined, compiles successfully. -/
theorem compile_validates :
    (∀ b : StateGraph,
      (b.entry = none ∨ ∃ n ∈ edgeRefs b, registered b n = false) →
      ∃ e, b.compile = .error e) ∧
    (∀ (oracle : ModelOracle) (tools : ToolExec),
      (workflow oracle tools).compile = .ok (app oracle tools)) := by
  constructor
  · intro b h
    unfold StateGraph.compile
    split
    · exact ⟨_, rfl⟩
    · cases hE : b.entry with
      | none => exact ⟨_, rfl⟩
      | some e =>
        rcases h with h | ⟨n, hn, hreg⟩
        · rw [h] at hE
          cases hE
        · have hfind : ((edgeRefs b).find? (fun n => !(registered b n))).isSome :=
            List.find?_isSome.mpr ⟨n, hn, by simp [hreg]⟩
          obtain ⟨n', hn'⟩ := Option.isSome_iff_exists.mp hfind
          rw [hn']
          exact ⟨_, rfl⟩
  · intro oracle tools
    exact workflow_compiles oracle tools

/-- Witness for C7: the empty graph fails to compile (no entry point), and
the notebook graph compiles. -/
theorem compile_validates_witness :
    (∃ e, StateGraph.empty.compile = .error e) ∧
    (workflow (fun _ => ([], "done", [])) search).compile
      = .ok (app (fun _ => ([], "done", [])) search) :=
  ⟨compile_validates.1 StateGraph.empty (Or.inl rfl),
   compile_validates.2 (fun _ => ([], "done", [])) search⟩

/-- C8 -- For every graph, every fuel and every start state, the event
trace of a run parses as a sequence of complete node blocks (`node_start`,
then only token and tool events of that same node, then `node_end`),
optionally closed by a final `run_end` or `run_failed`, and the sequence of
block-start nodes is exactly the scheduler's visit order. -/
theorem event_stream_ordered (g : CompiledGraph) (fuel : Nat)
    (s : SchedState) :
    chkEvents none (runE g fuel s).2 = true ∧
    blockStarts (runE g fuel s).2 = runVisits g fuel s := by
  induction fuel generalizing s with
  | zero => exact ⟨rfl, rfl⟩
  | succ k ih =>
    cases s with
    | terminated st => exact ⟨rfl, rfl⟩
    | failed e => exact ⟨rfl, rfl⟩
    | pending node st =>
      rw [runE_succ_pending_pair]
      have hvis : runVisits g (k + 1) (.pending node st)
          = match List.lookup node g.caps with
            | none => []
            | some _ =>
              node :: runVisits g k (stepE g (.pending node st)).1 := rfl
      cases hcap : List.lookup node g.caps with
      | none =>
        have hstep : stepE g (.pending node st)
            = (.failed (.unknownNode node), [.run_failed]) := by
          simp only [stepE, hcap]
        rw [hstep, hvis, hcap]
        simp [runE_failed_pair, chkEvents, blockStarts, runVisits_failed]
      | some cap =>
        rw [hvis, hcap]
        have hblock := fun (tail : List Event) =>
          chk_block node (cap st).2 tail
        have hstarts := fun (tail : List Event) =>
          blockStarts_block node (cap st).2 tail
        cases hedge : List.lookup node g.edges with
        | none =>
          have hstep : stepE g (.pending node st)
              = (.failed (.unknownNode node),
                 (Event.node_start node :: ((cap st).2.map (tagInner node)
                   ++ [Event.node_end node])) ++ [.run_failed]) := by
            simp only [stepE, hcap, hedge]
          rw [hstep]
          rw [runE_failed_pair, runVisits_failed]
          constructor
          · rw [List.append_nil, hblock [Event.run_failed]]
            rfl
          · rw [List.append_nil, hstarts [Event.run_failed]]
            rfl
        | some espec =>
          cases espec with
          | direct dest =>
            by_cases hdest : dest = endMarker
            · have hstep : stepE g (.pending node st)
                  = (.terminated (mergeState st (cap st).1),
                     (Event.node_start node :: ((cap st).2.map (tagInner node)
                       ++ [Event.node_end node])) ++ [.run_end]) := by
                simp only [stepE, hcap, hedge, resolveDest, hdest, if_pos]
              rw [hstep, runE_terminated_pair, runVisits_terminated]
              constructor
              · rw [List.append_nil, hblock [Event.run_end]]
                rfl
              · rw [List.append_nil, hstarts [Event.run_end]]
                rfl
            · have hstep : stepE g (.pending node st)
                  = (.pending dest (mergeState st (cap st).1),
                     (Event.node_start node :: ((cap st).2.map (tagInner node)
                       ++ [Event.node_end node])) ++ []) := by
                simp only [stepE, hcap, hedge, resolveDest, hdest, if_neg,
                  if_false]
              rw [hstep]
              obtain ⟨ihc, ihs⟩ := ih (.pending dest (mergeState st (cap st).1))
              constructor
              · rw [List.append_nil, hblock _]
                exact ihc
              · rw [List.append_nil, hstarts _, ihs]
          | cond router mapping =>
            cases hr : router (mergeState st (cap st).1) with
            | none =>
              have hstep : stepE g (.pending node st)
                  = (.failed .routerRaised,
                     (Event.node_start node :: ((cap st).2.map (tagInner node)
                       ++ [Event.node_end node])) ++ [.run_failed]) := by
                simp only [stepE, hcap, hedge, hr]
              rw [hstep, runE_failed_pair, runVisits_failed]
              constructor
              · rw [List.append_nil, hblock [Event.run_failed]]
                rfl
              · rw [List.append_nil, hstarts [Event.run_failed]]
                rfl
            | some label =>
              cases hm : List.lookup label mapping with
              | none =>
                have hstep : stepE g (.pending node st)
                    = (.failed (.routing label),
                       (Event.node_start node ::
                         ((cap st).2.map (tagInner node)
                           ++ [Event.node_end node])) ++ [.run_failed]) := by
                  simp only [stepE, hcap, hedge, hr, hm]
                rw [hstep, runE_failed_pair, runVisits_failed]
                constructor
                · rw [List.append_nil, hblock [Event.run_failed]]
                  rfl
                · rw [List.append_nil, hstarts [Event.run_failed]]
                  rfl
              | some dest =>
                by_cases hdest : dest = endMarker
                · have hstep : stepE g (.pending node st)
                      = (.terminated (mergeState st (cap st).1),
                         (Event.node_start node ::
                           ((cap st).2.map (tagInner node)
                             ++ [Event.node_end node])) ++ [.run_end]) := by
                    simp only [stepE, hcap, hedge, hr, hm, resolveDest,
                      hdest, if_pos]
                  rw [hstep, runE_terminated_pair, runVisits_terminated]
                  constructor
                  · rw [List.append_nil, hblock [Event.run_end]]
                    rfl
                  · rw [List.append_nil, hstarts [Event.run_end]]
                    rfl
                · have hstep : stepE g (.pending node st)
                      = (.pending dest (mergeState st (cap st).1),
                         (Event.node_start node ::
                           ((cap st).2.map (tagInner node)
                             ++ [Event.node_end node])) ++ []) := by
                    simp only [stepE, hcap, hedge, hr, hm, resolveDest,
                      hdest, if_neg, if_false]
                  rw [hstep]
                  obtain ⟨ihc, ihs⟩ :=
                    ih (.pending dest (mergeState st (cap st).1))
                  constructor
                  · rw [List.append_nil, hblock _]
                    exact ihc
                  · rw [List.append_nil, hstarts _, ihs]

/-- C9 -- Every run of the notebook graph visits nodes in the strictly
alternating order agent, action, agent, ...; a step from `agent` reaches
the terminal marker exactly when the model response carries no tool calls;
and if the model returns tool calls on every invocation the run never
terminates, for any amount of fuel. -/
theorem alternation_and_termination (oracle : ModelOracle) (tools : ToolExec) :
    (∀ (st : AgentState) (fuel : Nat),
      altFrom "agent"
        (runVisits (app oracle tools) fuel (.pending "agent" st)) = true) ∧
    (∀ st : AgentState,
      isTerminated (stepE (app oracle tools) (.pending "agent" st)).1
        = ((oracle st.messages).2.2).isEmpty) ∧
    ((∀ msgs, (oracle msgs).2.2 ≠ []) →
      ∀ (st : AgentState) (fuel : Nat),
        isTerminated (runE (app oracle tools) fuel (.pending "agent" st)).1
          = false) := by
  refine ⟨fun st fuel => runVisits_alt oracle tools fuel st "agent" (Or.inl rfl),
    fun st => ?_,
    fun hc st fuel =>
      never_terminated oracle tools hc fuel st "agent" (Or.inl rfl)⟩
  rw [agent_step]
  by_cases h : ((oracle st.messages).2.2).isEmpty = true
  · rw [if_pos h, h]
    rfl
  · rw [if_neg h]
    simp only [Bool.not_eq_true] at h
    rw [h]
    rfl

/-- Witness for C9: with the always-calling model the run has not
terminated after 6 steps, the visit order alternates, and the first step
from `agent` is not terminal. -/
theorem alternation_and_termination_witness :
    altFrom "agent"
      (runVisits (app loopModel search) 5 (.pending "agent" scenarioAInit))
      = true ∧
    isTerminated (stepE (app loopModel search) (.pending "agent" scenarioAInit)).1
      = ((loopModel scenarioAInit.messages).2.2).isEmpty ∧
    isTerminated (runE (app loopModel search) 6 (.pending "agent" scenarioAInit)).1
      = false :=
  ⟨(alternation_and_termination loopModel search).1 scenarioAInit 5,
   (alternation_and_termination loopModel search).2.1 scenarioAInit,
   (alternation_and_termination loopModel search).2.2
     (fun _ => by simp [loopModel]) scenarioAInit 6⟩

/-- C10 -- `should_continue` is undefined on an empty `messages` list; on
any non-empty state it returns one of exactly the labels `continue` and
`end`, both present in the destination mapping; and a notebook-graph run
started on a non-empty state never fails, so the unmapped-label error
branch is unreachable for this graph. -/
theorem router_label_safety :
    (should_continue ⟨[]⟩ = none) ∧
    (∀ st : AgentState, st.messages ≠ [] →
      ∃ l, should_continue st = some l ∧ (l = "continue" ∨ l = "end")
        ∧ (List.lookup l agentMapping).isSome = true) ∧
    (∀ (oracle : ModelOracle) (tools : ToolExec) (st : AgentState) (fuel : Nat),
      st.messages ≠ [] →
      isFailed (runE (app oracle tools) fuel (.pending "agent" st)).1
        = false) := by
  refine ⟨rfl, fun st hne => ?_, fun oracle tools st fuel _ => ?_⟩
  · have hsome : st.messages.getLast?.isSome = true :=
      List.getLast?_isSome.mpr hne
    obtain ⟨last, hlast⟩ := Option.isSome_iff_exists.mp hsome
    refine ⟨if (toolCallsOf last).isEmpty then "end" else "continue", ?_, ?_, ?_⟩
    · unfold should_continue
      rw [hlast]
      by_cases h : (toolCallsOf last).isEmpty = true <;> simp [h]
    · by_cases h : (toolCallsOf last).isEmpty = true <;> simp [h]
    · by_cases h : (toolCallsOf last).isEmpty = true <;>
        simp [h, agentMapping, List.lookup]
  · exact (runE_good oracle tools fuel _ (Or.inl ⟨st, rfl⟩)).not_failed

/-- Witness for C10 at the scenario-A input. -/
theorem router_label_safety_witness :
    (∃ l, should_continue scenarioAInit = some l
      ∧ (l = "continue" ∨ l = "end")
      ∧ (List.lookup l agentMapping).isSome = true) ∧
    isFailed (runE (app scriptedModel search) 4
      (.pending "agent" scenarioAInit)).1 = false :=
  ⟨router_label_safety.2.1 scenarioAInit (by decide),
   router_label_safety.2.2 scriptedModel search scenarioAInit 4 (by decide)⟩

end LangGraph
